import Mathlib

/-!
Verification development for the Flatcar Linux update operator
(reconciliation state machine in pkg/operator/operator.go and the
conflict-retry helper in pkg/k8sutil).

Nodes are modelled as records carrying two string key/value maps
(annotations and labels), represented as association lists whose lookup
semantics mirror the Go map and the Kubernetes field/label selector
semantics used by the source.
-/

namespace FLUO

/-- Annotation key standing for constants.AnnotationOkToReboot. -/
def annOk : String := "reboot-ok"

/-- Annotation key standing for constants.AnnotationRebootNeeded. -/
def annNeeded : String := "reboot-needed"

/-- Annotation key standing for constants.AnnotationRebootInProgress. -/
def annInProgress : String := "reboot-in-progress"

/-- Annotation key standing for constants.AnnotationRebootPaused. -/
def annPaused : String := "reboot-paused"

/-- Label key standing for constants.LabelBeforeReboot. -/
def labelBefore : String := "before-reboot"

/-- Label key standing for constants.LabelAfterReboot. -/
def labelAfter : String := "after-reboot"

/-- A key/value map (Go map[string]string), as an association list. -/
abbrev KV := List (String × String)

/-- Lookup of a key, returning the first binding if any. -/
def kvGet? : KV → String → Option String
  | [], _ => none
  | (k, v) :: m, key => if k = key then some v else kvGet? m key

/-- Lookup with the empty-string default used by fields.Set.Get in Kubernetes. -/
def kvGet (m : KV) (key : String) : String := (kvGet? m key).getD ""

/-- Key removal (Go delete on a map). -/
def kvErase : KV → String → KV
  | [], _ => []
  | (k, v) :: m, key => if k = key then kvErase m key else (k, v) :: kvErase m key

/-- Key assignment (Go m[k] = v). -/
def kvSet (m : KV) (key v : String) : KV := kvErase m key ++ [(key, v)]

/-- Removal of a list of keys, as the source loops doing delete. -/
def kvEraseAll (m : KV) (keys : List String) : KV := keys.foldl kvErase m

/-- A cluster node: its name, annotation map and label map. -/
structure Node where
  name : String
  anns : KV
  labels : KV
deriving DecidableEq, Repr

/-- The node carries annotation reboot-ok with value true. -/
def okTrueB (n : Node) : Bool := kvGet? n.anns annOk == some "true"

/-- The node carries label before-reboot with value true (labels.Requirement In [true]). -/
def beforeTrueB (n : Node) : Bool := kvGet? n.labels labelBefore == some "true"

/-- The node carries label after-reboot with value true. -/
def afterTrueB (n : Node) : Bool := kvGet? n.labels labelAfter == some "true"

/-- The node carries the before-reboot label key with any value,
as tested by the cleanup code with a bare map membership check. -/
def hasBeforeKey (n : Node) : Bool := (kvGet? n.labels labelBefore).isSome

/-- Embedding of justRebootedSelector: ok-to-reboot true, reboot-needed false,
reboot-in-progress false, each compared against the literal string (a missing
key yields the empty string under fields.Set.Get and never matches). -/
def justRebootedB (n : Node) : Bool :=
  kvGet? n.anns annOk == some "true" &&
  kvGet? n.anns annNeeded == some "false" &&
  kvGet? n.anns annInProgress == some "false"

/-- Embedding of wantsRebootSelector: reboot-needed == true, and reboot-paused,
ok-to-reboot, reboot-in-progress each != true (a missing key satisfies !=). -/
def wantsRebootAnnB (n : Node) : Bool :=
  kvGet? n.anns annNeeded == some "true" &&
  !(kvGet? n.anns annPaused == some "true") &&
  !(kvGet? n.anns annOk == some "true") &&
  !(kvGet? n.anns annInProgress == some "true")

/-- Embedding of stillRebootingSelector: ok-to-reboot true and reboot-needed true. -/
def stillRebootingB (n : Node) : Bool :=
  kvGet? n.anns annOk == some "true" && kvGet? n.anns annNeeded == some "true"

/-- Embedding of hasAllAnnotations on an annotation map: every configured key is
present with value exactly true. -/
def hasAllKV (a : KV) (keys : List String) : Bool :=
  keys.all (fun k => kvGet? a k == some "true")

/-- Embedding of hasAllAnnotations on a node. -/
def hasAllAnns (n : Node) (keys : List String) : Bool := hasAllKV n.anns keys

/-- A recurring reboot window (coreos locksmith timeutil.Periodic), with an
anchor start, a duration, and a recurrence period, all in abstract time units. -/
structure Periodic where
  start : Int
  length : Int
  period : Int
deriving DecidableEq, Repr

/-- End time of the most recent occurrence of the window at or before now
(timeutil Periodic.Previous followed by .End). -/
def Periodic.previousEnd (p : Periodic) (now : Int) : Int :=
  p.start + p.period * ((now - p.start).fdiv p.period) + p.length

/-- Controller configuration relevant to reconciliation. -/
structure Kontroller where
  beforeRebootAnns : List String
  afterRebootAnns : List String
  rebootWindow : Option Periodic
deriving DecidableEq, Repr

/-- Embedding of the maxRebootingNodes constant. -/
def maxRebootingNodes : Nat := 1

/-- Embedding of Kontroller.insideRebootWindow: true when no window is
configured, otherwise the literal source expression, namely the negation of
period.End.After(now), that is previousEnd less than or equal to now. -/
def insideRebootWindow (k : Kontroller) (now : Int) : Bool :=
  match k.rebootWindow with
  | none => true
  | some p => !(decide (now < p.previousEnd now))

/-- The window predicate as the specification words it: with a window
configured, true exactly when the end of the most recent occurrence at or
before now is strictly after now. -/
def specInsideWindow (k : Kontroller) (now : Int) : Bool :=
  match k.rebootWindow with
  | none => true
  | some p => decide (now < p.previousEnd now)

/-- Per-node transform of cleanupState: a node holding the before-reboot label
key while no longer matching wantsRebootSelector loses the label and all
configured before-reboot annotations. -/
def cleanupNode (k : Kontroller) (n : Node) : Node :=
  if hasBeforeKey n && !(wantsRebootAnnB n) then
    { n with labels := kvErase n.labels labelBefore,
             anns := kvEraseAll n.anns k.beforeRebootAnns }
  else n

/-- Embedding of Kontroller.cleanupState over the node list. -/
def cleanupState (k : Kontroller) (s : List Node) : List Node := s.map (cleanupNode k)

/-- Per-node transform of checkBeforeReboot: a node labelled before-reboot=true
whose configured before-reboot annotations are all true loses the label and
those annotations and gains reboot-ok=true. -/
def checkBeforeNode (k : Kontroller) (n : Node) : Node :=
  if beforeTrueB n && hasAllAnns n k.beforeRebootAnns then
    { n with labels := kvErase n.labels labelBefore,
             anns := kvSet (kvEraseAll n.anns k.beforeRebootAnns) annOk "true" }
  else n

/-- Embedding of Kontroller.checkBeforeReboot over the node list. -/
def checkBeforeReboot (k : Kontroller) (s : List Node) : List Node :=
  s.map (checkBeforeNode k)

/-- Per-node transform of checkAfterReboot: a node labelled after-reboot=true
whose configured after-reboot annotations are all true loses the label and
those annotations and gets reboot-ok=false. -/
def checkAfterNode (k : Kontroller) (n : Node) : Node :=
  if afterTrueB n && hasAllAnns n k.afterRebootAnns then
    { n with labels := kvErase n.labels labelAfter,
             anns := kvSet (kvEraseAll n.anns k.afterRebootAnns) annOk "false" }
  else n

/-- Embedding of Kontroller.checkAfterReboot over the node list. -/
def checkAfterReboot (k : Kontroller) (s : List Node) : List Node :=
  s.map (checkAfterNode k)

/-- Embedding of Kontroller.mark applied to one node: delete the given
annotations, then set the given label to true. -/
def markNode (keys : List String) (lab : String) (n : Node) : Node :=
  { n with anns := kvEraseAll n.anns keys, labels := kvSet n.labels lab "true" }

/-- Per-node transform of markAfterReboot: a node matching justRebootedSelector
and not already labelled after-reboot=true is marked. -/
def markAfterNode (k : Kontroller) (n : Node) : Node :=
  if justRebootedB n && !(afterTrueB n) then markNode k.afterRebootAnns labelAfter n
  else n

/-- Embedding of Kontroller.markAfterReboot over the node list. -/
def markAfterReboot (k : Kontroller) (s : List Node) : List Node :=
  s.map (markAfterNode k)

/-- Embedding of Kontroller.remainingRebootingCapacity: the constant bound minus
the length of the concatenation of the three filtered lists (no deduplication,
no clamping). -/
def remainingRebootingCapacity (s : List Node) : Int :=
  (maxRebootingNodes : Int) -
    ((s.countP stillRebootingB : Int) + (s.countP beforeTrueB : Int) +
      (s.countP afterTrueB : Int))

/-- Embedding of Kontroller.nodesRequiringReboot: wantsRebootSelector matches
and the before-reboot label is not set to true. -/
def nodesRequiringReboot (s : List Node) : List Node :=
  (s.filter wantsRebootAnnB).filter (fun n => !(beforeTrueB n))

/-- Names of the nodes chosen by rebootableNodes: the first nodes requiring a
reboot, up to the remaining capacity (a non-positive capacity selects none). -/
def rebootableNames (s : List Node) : List String :=
  ((nodesRequiringReboot s).take (remainingRebootingCapacity s).toNat).map Node.name

/-- Embedding of Kontroller.markBeforeReboot: outside the window (as the code
computes it) nothing happens; otherwise each chosen node loses the configured
before-reboot annotations and gains the before-reboot=true label. -/
def markBeforeReboot (k : Kontroller) (now : Int) (s : List Node) : List Node :=
  if !(insideRebootWindow k now) then s
  else
    s.map (fun n =>
      if (rebootableNames s).contains n.name then
        markNode k.beforeRebootAnns labelBefore n
      else n)

/-- Embedding of Kontroller.process: the five phases in source order. -/
def process (k : Kontroller) (now : Int) (s : List Node) : List Node :=
  markBeforeReboot k now
    (checkBeforeReboot k (markAfterReboot k (checkAfterReboot k (cleanupState k s))))

/-- A node is in flight: in PreCheck (before label), Admitted (ok and needed,
the stillRebooting selector), or PostCheck (after label). -/
def inFlightB (n : Node) : Bool := beforeTrueB n || stillRebootingB n || afterTrueB n

/-- Number of distinct in-flight nodes in a list. -/
def inFlightCount (s : List Node) : Nat := s.countP inFlightB

/-- Remaining capacity as the specification words it: the bound minus the
number of distinct in-flight nodes, clamped at zero. -/
def specRemainingCapacity (s : List Node) : Int :=
  max 0 ((maxRebootingNodes : Int) - (inFlightCount s : Int))

/-- Spec phase WantsReboot: the annotation predicate plus no before label. -/
def wantsRebootPhaseB (n : Node) : Bool := wantsRebootAnnB n && !(beforeTrueB n)

/-- Spec phase JustRebooted: the selector plus no after label. -/
def justRebootedPhaseB (n : Node) : Bool := justRebootedB n && !(afterTrueB n)

/-- Spec phase Idle: none of the other phase markers applies. -/
def idleB (n : Node) : Bool :=
  !(wantsRebootPhaseB n) && !(beforeTrueB n) && !(stillRebootingB n) &&
  !(justRebootedPhaseB n) && !(afterTrueB n)

/-- The four protocol annotation keys owned jointly by agent and controller. -/
def reservedKeys : List String := [annOk, annNeeded, annInProgress, annPaused]

/-- The configured check-annotation key lists avoid the protocol keys.
In a real deployment the protocol keys live under the operator prefix while
check keys are user-chosen gate names. -/
def reservedFree (k : Kontroller) : Prop :=
  ∀ a ∈ reservedKeys, a ∉ k.beforeRebootAnns ∧ a ∉ k.afterRebootAnns

/-- The node carries any controller-owned marker: reboot-ok=true or one of the
two phase labels set to true. -/
def markedB (n : Node) : Bool := okTrueB n || beforeTrueB n || afterTrueB n

/-- Number of nodes carrying a controller-owned marker. -/
def cntMarked (s : List Node) : Nat := s.countP markedB

/-- Per-node agent write discipline: while the controller grant reboot-ok=true
stands, reboot-needed is the string true, or reboot-needed and
reboot-in-progress are both the string false (the agent reports completion of
the reboot by writing both). -/
def JPn (n : Node) : Prop :=
  okTrueB n = true →
    kvGet? n.anns annNeeded = some "true" ∨
    (kvGet? n.anns annNeeded = some "false" ∧ kvGet? n.anns annInProgress = some "false")

/-- All nodes of the list satisfy the agent write discipline. -/
def agentConsistent (s : List Node) : Prop := ∀ n ∈ s, JPn n

/-- Cleanup postcondition for one node: the before-reboot label key is only
present while the node still matches wantsRebootSelector. -/
def WAn (n : Node) : Prop := hasBeforeKey n = true → wantsRebootAnnB n = true

/-- Marked nodes are visible to the capacity computation: a reboot-ok grant
comes with the after label or with the stillRebooting annotations. -/
def Qn (n : Node) : Prop :=
  okTrueB n = true → (afterTrueB n = true ∨ stillRebootingB n = true)

/-- A node labelled before-reboot=true does not have all configured
before-reboot annotations set, so checkBeforeReboot leaves it alone. -/
def BnP (k : Kontroller) (n : Node) : Prop :=
  beforeTrueB n = true → hasAllAnns n k.beforeRebootAnns = false

/-- A node labelled after-reboot=true does not have all configured
after-reboot annotations set, so checkAfterReboot leaves it alone. -/
def CnP (k : Kontroller) (n : Node) : Prop :=
  afterTrueB n = true → hasAllAnns n k.afterRebootAnns = false

/-- A node matching justRebootedSelector already carries the after label, so
markAfterReboot leaves it alone. -/
def DnP (n : Node) : Prop := justRebootedB n = true → afterTrueB n = true

/-- An external write of one annotation on the node of the given name
(agents write reboot-needed and reboot-in-progress, operators write
reboot-paused, health gates write check annotations; reboot-ok is
controller-exclusive). -/
def setAnnOnNamed (s : List Node) (nm key v : String) : List Node :=
  s.map (fun n => if n.name = nm then { n with anns := kvSet n.anns key v } else n)

/-- One step of the environment: a write of any annotation other than
reboot-ok on one node, per the field-ownership discipline of the spec. -/
inductive EnvWrite : List Node → List Node → Prop where
  | write (s : List Node) (nm key v : String) (hk : key ≠ annOk) :
      EnvWrite s (setAnnOnNamed s nm key v)

/-- States reachable from a fresh fleet by reconciliation passes and
environment writes. -/
inductive Reachable (k : Kontroller) (now : Int) : List Node → Prop where
  | init (names : List String) :
      Reachable k now (names.map (fun nm => ⟨nm, [], []⟩))
  | pass (s : List Node) : Reachable k now s → Reachable k now (process k now s)
  | env (s t : List Node) : Reachable k now s → EnvWrite s t → Reachable k now t

/-- Result of one attempt of the function passed to RetryOnConflict: success,
a conflict error, or any other error (errors carry an abstract code). -/
inductive Outcome where
  | ok : Outcome
  | conflict (code : Nat) : Outcome
  | other (code : Nat) : Outcome
deriving DecidableEq, Repr

/-- Error returned by the retry loop. -/
inductive RetryErr where
  | conflictErr (code : Nat) : RetryErr
  | otherErr (code : Nat) : RetryErr
deriving DecidableEq, Repr

/-- Embedding of wait.Backoff: attempt budget, base duration in milliseconds,
multiplication factor and jitter fraction. -/
structure Backoff where
  steps : Nat
  durationMs : Nat
  factor : ℚ
  jitter : ℚ
deriving DecidableEq, Repr

/-- Embedding of k8sutil.DefaultRetry. -/
def DefaultRetry : Backoff := ⟨5, 10, 1, 1/10⟩

/-- Combined loop of wait.ExponentialBackoff and the RetryOnConflict wrapper:
the i-th attempt result comes from fn i; success and non-conflict errors exit
at once, a conflict is recorded and retried, and on exhaustion the recorded
last conflict error replaces ErrWaitTimeout. -/
def retryAux (fn : Nat → Outcome) : Nat → Nat → Option Nat → Option RetryErr
  | 0, _, last =>
    match last with
    | some c => some (RetryErr.conflictErr c)
    | none => none
  | steps + 1, i, _ =>
    match fn i with
    | Outcome.ok => none
    | Outcome.other e => some (RetryErr.otherErr e)
    | Outcome.conflict c => retryAux fn steps (i + 1) (some c)

/-- Embedding of k8sutil.RetryOnConflict run with a given backoff; none means
the nil error. -/
def retryOnConflict (b : Backoff) (fn : Nat → Outcome) : Option RetryErr :=
  retryAux fn b.steps 0 none

/-- Reboot window used by the window counterexamples: occurrences start at
times 0, 100, 200, ... and last 10 units each. -/
def c1win : Periodic := ⟨0, 10, 100⟩

/-- Controller with the counterexample window and no check annotations. -/
def c1cfg : Kontroller := ⟨[], [], some c1win⟩

/-- Controller with no reboot window configured. -/
def c1cfgNone : Kontroller := ⟨[], [], none⟩

/-- A node that is both stillRebooting and labelled before-reboot=true. -/
def c2node : Node := ⟨"a", [(annOk, "true"), (annNeeded, "true")], [(labelBefore, "true")]⟩

/-- Controller for the in-flight bound counterexample trace. -/
def c3cfg : Kontroller := ⟨[], [], none⟩

/-- Fresh two-node fleet. -/
def c3s0 : List Node := [⟨"a", [], []⟩, ⟨"b", [], []⟩]

/-- Agent on a declares it wants to reboot. -/
def c3s0a : List Node := setAnnOnNamed c3s0 "a" annNeeded "true"

/-- Pass admits a into PreCheck. -/
def c3s1 : List Node := process c3cfg 0 c3s0a

/-- Pass grants a reboot-ok=true (Admitted). -/
def c3s2 : List Node := process c3cfg 0 c3s1

/-- Agent on b declares it wants to reboot. -/
def c3s2a : List Node := setAnnOnNamed c3s2 "b" annNeeded "true"

/-- Agent on a starts rebooting. -/
def c3s2b : List Node := setAnnOnNamed c3s2a "a" annInProgress "true"

/-- Agent on a comes back up and clears reboot-needed first. -/
def c3s3 : List Node := setAnnOnNamed c3s2b "a" annNeeded "false"

/-- Pass runs while a still shows reboot-in-progress=true: a is invisible to
the capacity computation, so b is admitted into PreCheck. -/
def c3s4 : List Node := process c3cfg 0 c3s3

/-- Agent on a clears reboot-in-progress. -/
def c3s5 : List Node := setAnnOnNamed c3s4 "a" annInProgress "false"

/-- Pass labels a after-reboot=true while b is Admitted: two nodes in flight. -/
def c3s6 : List Node := process c3cfg 0 c3s5

/-- Single node wanting a reboot, for the window counterexample. -/
def c4s : List Node := [⟨"a", [(annNeeded, "true")], []⟩]

/-- Controller with empty check-annotation lists for the postcheck counterexample. -/
def c6cfg : Kontroller := ⟨[], [], none⟩

/-- A node in PostCheck whose agent already wants the next reboot. -/
def c6node : Node := ⟨"a", [(annNeeded, "true")], [(labelAfter, "true")]⟩

/-- Result of the finish-post-check transform on that node. -/
def c6res : Node := checkAfterNode c6cfg c6node

/-- Controller with empty check-annotation lists for the idempotence counterexample. -/
def c8cfg : Kontroller := ⟨[], [], none⟩

/-- Single node wanting a reboot, for the idempotence counterexample. -/
def c8s : List Node := [⟨"a", [(annNeeded, "true")], []⟩]

/-- Controller with nonempty check-annotation lists, used by witnesses. -/
def wCfg : Kontroller := ⟨["pre"], ["post"], none⟩

/-- Witness fleet: one Admitted node and one idle node. -/
def wS : List Node := [⟨"a", [(annOk, "true"), (annNeeded, "true")], []⟩, ⟨"b", [], []⟩]

/-- Witness node in PreCheck with its gate satisfied. -/
def w5node : Node := ⟨"a", [("pre", "true"), (annNeeded, "true")], [(labelBefore, "true")]⟩

/-- Witness node in PostCheck with its gate satisfied. -/
def w6node : Node := ⟨"a", [("post", "true"), (annNeeded, "false"), (annInProgress, "false")], [(labelAfter, "true")]⟩

/-- Witness node in PreCheck, paused, with its gate satisfied. -/
def w10node : Node := ⟨"a", [("pre", "true"), (annPaused, "true"), (annNeeded, "false")], [(labelBefore, "true")]⟩

/-- Witness node holding a stale before-reboot label while paused. -/
def w7node : Node := ⟨"a", [("pre", "false"), (annNeeded, "true"), (annPaused, "true")], [(labelBefore, "true")]⟩

set_option maxRecDepth 100000

theorem kvGet?_erase (m : KV) (k key : String) :
    kvGet? (kvErase m k) key = if key = k then none else kvGet? m key := by
  induction m with
  | nil => simp [kvErase, kvGet?]
  | cons p m ih =>
    obtain ⟨a, b⟩ := p
    by_cases hak : a = k
    · subst hak
      by_cases hka : key = a
      · subst hka; simp [kvErase, kvGet?, ih]
      · have hak' : ¬a = key := fun h => hka h.symm
        simp [kvErase, kvGet?, ih, hka, hak']
    · by_cases hka : key = a
      · subst hka
        simp [kvErase, kvGet?, hak]
      · have hak' : ¬a = key := fun h => hka h.symm
        simp [kvErase, kvGet?, hak, hak', hka, ih]

theorem kvGet?_append (m1 m2 : KV) (key : String) :
    kvGet? (m1 ++ m2) key =
      match kvGet? m1 key with
      | some v => some v
      | none => kvGet? m2 key := by
  induction m1 with
  | nil => simp [kvGet?]
  | cons p m ih =>
    obtain ⟨a, b⟩ := p
    by_cases hka : a = key <;> simp [kvGet?, hka, ih]

theorem kvGet?_set (m : KV) (k v key : String) :
    kvGet? (kvSet m k v) key = if key = k then some v else kvGet? m key := by
  unfold kvSet
  rw [kvGet?_append, kvGet?_erase]
  by_cases hk : key = k
  · simp [kvGet?, hk]
  · have hk' : ¬k = key := fun h => hk h.symm
    cases h : kvGet? m key <;> simp [h, hk, hk', kvGet?]

theorem kvGet?_eraseAll (m : KV) (ks : List String) (key : String) :
    kvGet? (kvEraseAll m ks) key = if key ∈ ks then none else kvGet? m key := by
  induction ks generalizing m with
  | nil => simp [kvEraseAll]
  | cons k ks ih =>
    have hstep : kvEraseAll m (k :: ks) = kvEraseAll (kvErase m k) ks := rfl
    rw [hstep, ih, kvGet?_erase]
    by_cases h1 : key ∈ ks <;> by_cases h2 : key = k <;> simp [h1, h2]

theorem hasAllKV_eraseAll_same (a : KV) (ks : List String) (h : ks ≠ []) :
    hasAllKV (kvEraseAll a ks) ks = false := by
  cases ks with
  | nil => exact absurd rfl h
  | cons k ks =>
    have : kvGet? (kvEraseAll a (k :: ks)) k = none := by
      rw [kvGet?_eraseAll]; simp
    simp [hasAllKV, this]

theorem hasAllKV_of_eraseAll (a : KV) (ks2 ks : List String)
    (h : hasAllKV (kvEraseAll a ks2) ks = true) : hasAllKV a ks = true := by
  rw [hasAllKV, List.all_eq_true] at h ⊢
  intro k hk
  have := h k hk
  rw [kvGet?_eraseAll] at this
  by_cases hmem : k ∈ ks2
  · simp [hmem] at this
  · simpa [hmem] using this

theorem hasAllKV_set_ne (a : KV) (key v : String) (ks : List String) (h : key ∉ ks) :
    hasAllKV (kvSet a key v) ks = hasAllKV a ks := by
  unfold hasAllKV
  induction ks with
  | nil => rfl
  | cons x ks ih =>
    have hx : ¬x = key := fun hxk => h (hxk ▸ List.mem_cons_self x ks)
    have hks : key ∉ ks := fun hm => h (List.mem_cons_of_mem x hm)
    rw [List.all_cons, List.all_cons, ih hks, kvGet?_set, if_neg hx]

theorem ne_after_before : ¬(labelAfter = labelBefore) := by decide

theorem ne_before_after : ¬(labelBefore = labelAfter) := by decide

theorem ne_needed_ok : ¬(annNeeded = annOk) := by decide

theorem ne_inprog_ok : ¬(annInProgress = annOk) := by decide

theorem ne_paused_ok : ¬(annPaused = annOk) := by decide

theorem reservedFree_elim {k : Kontroller} (h : reservedFree k) :
    annOk ∉ k.beforeRebootAnns ∧ annNeeded ∉ k.beforeRebootAnns ∧
    annInProgress ∉ k.beforeRebootAnns ∧ annPaused ∉ k.beforeRebootAnns ∧
    annOk ∉ k.afterRebootAnns ∧ annNeeded ∉ k.afterRebootAnns ∧
    annInProgress ∉ k.afterRebootAnns ∧ annPaused ∉ k.afterRebootAnns := by
  refine ⟨(h annOk ?_).1, (h annNeeded ?_).1, (h annInProgress ?_).1, (h annPaused ?_).1,
    (h annOk ?_).2, (h annNeeded ?_).2, (h annInProgress ?_).2, (h annPaused ?_).2⟩ <;>
    simp [reservedKeys]

theorem countP_or_le (p q : Node → Bool) (l : List Node) :
    l.countP (fun a => p a || q a) ≤ l.countP p + l.countP q := by
  induction l with
  | nil => simp
  | cons a l ih =>
    rw [List.countP_cons, List.countP_cons, List.countP_cons]
    cases hp : p a <;> cases hq : q a <;> simp [hp, hq] <;> omega

theorem map_self {α : Type} (f : α → α) (l : List α) (h : ∀ a ∈ l, f a = a) :
    l.map f = l := by
  rw [List.map_congr_left h]
  exact List.map_id' l

theorem cleanupNode_marked {k : Kontroller} (hres : reservedFree k) (n : Node)
    (h : markedB (cleanupNode k n) = true) : markedB n = true := by
  obtain ⟨hOkB, -, -, -, -, -, -, -⟩ := reservedFree_elim hres
  unfold cleanupNode at h
  split at h
  · simp [markedB, okTrueB, beforeTrueB, afterTrueB, kvGet?_erase, kvGet?_eraseAll,
      hOkB, ne_after_before] at h ⊢
    tauto
  · exact h

theorem beforeTrue_hasKey {n : Node} (h : beforeTrueB n = true) : hasBeforeKey n = true := by
  simp only [beforeTrueB, beq_iff_eq] at h
  simp [hasBeforeKey, h]

theorem cleanupNode_name (k : Kontroller) (n : Node) : (cleanupNode k n).name = n.name := by
  unfold cleanupNode; split <;> rfl

theorem checkBeforeNode_name (k : Kontroller) (n : Node) :
    (checkBeforeNode k n).name = n.name := by
  unfold checkBeforeNode; split <;> rfl

theorem checkAfterNode_name (k : Kontroller) (n : Node) :
    (checkAfterNode k n).name = n.name := by
  unfold checkAfterNode; split <;> rfl

theorem markAfterNode_name (k : Kontroller) (n : Node) :
    (markAfterNode k n).name = n.name := by
  unfold markAfterNode markNode; split <;> rfl

theorem cleanupNode_wa (k : Kontroller) (n : Node) : WAn (cleanupNode k n) := by
  unfold WAn cleanupNode
  split
  · intro h
    simp [hasBeforeKey, kvGet?_erase] at h
  · rename_i hc
    intro h
    simp at hc
    exact hc h

theorem cleanupNode_jp {k : Kontroller} (hres : reservedFree k) (n : Node) (h : JPn n) :
    JPn (cleanupNode k n) := by
  obtain ⟨hOkB, hNeB, hIpB, -, -, -, -, -⟩ := reservedFree_elim hres
  unfold cleanupNode
  split
  · intro hok
    simp [okTrueB, kvGet?_eraseAll, hOkB] at hok
    have := h (by simp [okTrueB, hok])
    simpa [kvGet?_eraseAll, hNeB, hIpB] using this
  · exact h

theorem checkAfterNode_wa {k : Kontroller} (hres : reservedFree k) (n : Node) (h : WAn n) :
    WAn (checkAfterNode k n) := by
  obtain ⟨-, hNeB, hIpB, hPaB, hOkA, hNeA, hIpA, hPaA⟩ := reservedFree_elim hres
  unfold checkAfterNode
  split
  · intro hkey
    simp [hasBeforeKey, kvGet?_erase, ne_before_after] at hkey
    have hw := h (by simp [hasBeforeKey, hkey])
    simp [wantsRebootAnnB, kvGet?_set, kvGet?_eraseAll, hNeA, hIpA, hPaA,
      ne_needed_ok, ne_inprog_ok, ne_paused_ok] at hw ⊢
    tauto
  · exact h

theorem checkAfterNode_marked (k : Kontroller) (n : Node)
    (h : markedB (checkAfterNode k n) = true) : markedB n = true := by
  unfold checkAfterNode at h
  split at h
  · simp [markedB, okTrueB, beforeTrueB, afterTrueB, kvGet?_erase, kvGet?_set,
      ne_before_after] at h ⊢
    tauto
  · exact h

theorem checkAfterNode_jp (k : Kontroller) (n : Node) (h : JPn n) :
    JPn (checkAfterNode k n) := by
  unfold checkAfterNode
  split
  · intro hok
    simp [okTrueB, kvGet?_set] at hok
  · exact h

theorem checkAfterNode_cn (k : Kontroller) (n : Node) : CnP k (checkAfterNode k n) := by
  unfold CnP checkAfterNode
  split
  · intro hat
    simp [afterTrueB, kvGet?_erase] at hat
  · rename_i hc
    intro hat
    simp [hasAllAnns] at hc ⊢
    exact hc hat

theorem markAfterNode_wa (k : Kontroller) (n : Node) (h : WAn n) :
    WAn (markAfterNode k n) := by
  unfold markAfterNode
  split
  · rename_i hc
    intro hkey
    simp [markNode, hasBeforeKey, kvGet?_set, ne_before_after] at hkey
    have hw := h (by simp [hasBeforeKey, hkey])
    have hok : okTrueB n = true := by
      simp only [justRebootedB, Bool.and_eq_true] at hc
      simp [okTrueB, hc.1.1.1]
    simp [wantsRebootAnnB, okTrueB] at hw hok
    simp [hok] at hw
  · exact h

theorem markAfterNode_marked (k : Kontroller) (n : Node)
    (h : markedB (markAfterNode k n) = true) : markedB n = true := by
  unfold markAfterNode at h
  split at h
  · rename_i hc
    simp only [justRebootedB, Bool.and_eq_true] at hc
    simp [markedB, okTrueB, hc.1.1.1]
  · exact h

theorem markAfterNode_jp {k : Kontroller} (hres : reservedFree k) (n : Node) (h : JPn n) :
    JPn (markAfterNode k n) := by
  obtain ⟨-, -, -, -, hOkA, hNeA, hIpA, -⟩ := reservedFree_elim hres
  unfold markAfterNode markNode
  split
  · intro hok
    simp [okTrueB, kvGet?_eraseAll, hOkA] at hok
    have := h (by simp [okTrueB, hok])
    simpa [kvGet?_eraseAll, hNeA, hIpA] using this
  · exact h

theorem markAfterNode_q {k : Kontroller} (hres : reservedFree k) (n : Node) (h : JPn n) :
    Qn (markAfterNode k n) := by
  unfold markAfterNode
  split
  · intro _
    left
    simp [markNode, afterTrueB, kvGet?_set]
  · rename_i hc
    intro hok
    rcases h hok with hne | ⟨hne, hip⟩
    · right
      simp [stillRebootingB, okTrueB, hne] at hok ⊢
      simp [hok]
    · left
      have hjr : justRebootedB n = true := by
        simp [justRebootedB, okTrueB, hne, hip] at hok ⊢
        simp [hok]
      simp [hjr] at hc
      simpa [afterTrueB] using hc

theorem markAfterNode_dn (k : Kontroller) (n : Node) : DnP (markAfterNode k n) := by
  unfold DnP markAfterNode
  split
  · intro _
    simp [markNode, afterTrueB, kvGet?_set]
  · rename_i hc
    intro hjr
    simp [hjr] at hc
    simpa [afterTrueB] using hc

theorem markAfterNode_cn {k : Kontroller} (hres : reservedFree k)
    (ha : k.afterRebootAnns ≠ []) (n : Node) (h : CnP k n) :
    CnP k (markAfterNode k n) := by
  unfold markAfterNode
  split
  · intro _
    simp [markNode, hasAllAnns]
    exact hasAllKV_eraseAll_same n.anns k.afterRebootAnns ha
  · exact h

theorem checkBeforeNode_wa (k : Kontroller) (n : Node) (h : WAn n) :
    WAn (checkBeforeNode k n) := by
  unfold checkBeforeNode
  split
  · intro hkey
    simp [hasBeforeKey, kvGet?_erase] at hkey
  · exact h

theorem checkBeforeNode_marked (k : Kontroller) (n : Node)
    (h : markedB (checkBeforeNode k n) = true) : markedB n = true := by
  unfold checkBeforeNode at h
  split at h
  · rename_i hc
    simp only [Bool.and_eq_true] at hc
    simp [markedB, hc.1]
  · exact h

theorem checkBeforeNode_jp {k : Kontroller} (hres : reservedFree k) (n : Node)
    (hwa : WAn n) (h : JPn n) : JPn (checkBeforeNode k n) := by
  obtain ⟨-, hNeB, hIpB, -, -, -, -, -⟩ := reservedFree_elim hres
  unfold checkBeforeNode
  split
  · rename_i hc
    intro _
    simp only [Bool.and_eq_true] at hc
    have hkey : hasBeforeKey n = true := beforeTrue_hasKey hc.1
    have hw := hwa hkey
    simp only [wantsRebootAnnB, Bool.and_eq_true] at hw
    left
    have hne : kvGet? n.anns annNeeded = some "true" := by
      have := hw.1.1.1
      simpa using this
    simp [kvGet?_set, kvGet?_eraseAll, hNeB, ne_needed_ok, hne]
  · exact h

theorem checkBeforeNode_q {k : Kontroller} (hres : reservedFree k) (n : Node)
    (hwa : WAn n) (h : Qn n) : Qn (checkBeforeNode k n) := by
  obtain ⟨-, hNeB, -, -, -, -, -, -⟩ := reservedFree_elim hres
  unfold checkBeforeNode
  split
  · rename_i hc
    intro _
    right
    simp only [Bool.and_eq_true] at hc
    have hkey : hasBeforeKey n = true := beforeTrue_hasKey hc.1
    have hw := hwa hkey
    simp only [wantsRebootAnnB, Bool.and_eq_true] at hw
    have hne : kvGet? n.anns annNeeded = some "true" := by
      have := hw.1.1.1
      simpa using this
    simp [stillRebootingB, kvGet?_set, kvGet?_eraseAll, hNeB, ne_needed_ok, hne]
  · exact h

theorem checkBeforeNode_bn (k : Kontroller) (n : Node) : BnP k (checkBeforeNode k n) := by
  unfold BnP checkBeforeNode
  split
  · intro hbt
    simp [beforeTrueB, kvGet?_erase] at hbt
  · rename_i hc
    intro hbt
    simp [hasAllAnns] at hc ⊢
    exact hc hbt

theorem checkBeforeNode_cn {k : Kontroller} (hres : reservedFree k) (n : Node)
    (h : CnP k n) : CnP k (checkBeforeNode k n) := by
  obtain ⟨-, -, -, -, hOkA, -, -, -⟩ := reservedFree_elim hres
  unfold checkBeforeNode
  split
  · intro hat
    have hat' : afterTrueB n = true := by
      simpa [afterTrueB, kvGet?_erase, ne_after_before] using hat
    show hasAllKV (kvSet (kvEraseAll n.anns k.beforeRebootAnns) annOk "true")
      k.afterRebootAnns = false
    rw [hasAllKV_set_ne _ _ _ _ hOkA]
    cases hval : hasAllKV (kvEraseAll n.anns k.beforeRebootAnns) k.afterRebootAnns
    · rfl
    · exfalso
      have h2 := hasAllKV_of_eraseAll n.anns k.beforeRebootAnns k.afterRebootAnns hval
      have h3 := h hat'
      simp only [hasAllAnns] at h3
      rw [h3] at h2
      exact Bool.false_ne_true h2
  · exact h

theorem checkBeforeNode_dn {k : Kontroller} (hres : reservedFree k) (n : Node)
    (hwa : WAn n) (h : DnP n) : DnP (checkBeforeNode k n) := by
  obtain ⟨-, hNeB, -, -, -, -, -, -⟩ := reservedFree_elim hres
  unfold checkBeforeNode
  split
  · rename_i hc
    intro hjr
    exfalso
    simp only [Bool.and_eq_true] at hc
    have hkey : hasBeforeKey n = true := beforeTrue_hasKey hc.1
    have hw := hwa hkey
    simp only [wantsRebootAnnB, Bool.and_eq_true] at hw
    have hne : kvGet? n.anns annNeeded = some "true" := by
      have := hw.1.1.1
      simpa using this
    simp [justRebootedB, kvGet?_set, kvGet?_eraseAll, hNeB, ne_needed_ok, hne] at hjr
  · exact h

/-- C1: the claim says insideWindow is true with no window configured, and with
a window configured true exactly when the previous occurrence's end is strictly
after now. The code returns the negation of End.After(now): at time 5, inside
the occurrence 0..10 of the configured window, it answers false while the spec
predicate answers true (and at time 20, outside, it answers true). The
no-window half of the claim does hold. -/
theorem insideRebootWindow_code_bug_eval :
    insideRebootWindow c1cfgNone 5 = true ∧
    specInsideWindow c1cfg 5 = true ∧ insideRebootWindow c1cfg 5 = false ∧
    specInsideWindow c1cfg 20 = false ∧ insideRebootWindow c1cfg 20 = true := by
  decide

/-- C2: the claim says remainingCapacity is max(0, bound minus the number of
distinct in-flight nodes). On a node that is both stillRebooting and labelled
before-reboot=true the code counts it twice and returns -1 where the claim
requires 0, so the result can be negative. -/
theorem remainingRebootingCapacity_not_dedup_cex :
    inFlightCount [c2node] = 1 ∧ remainingRebootingCapacity [c2node] = -1 ∧
    specRemainingCapacity [c2node] = 0 := by
  decide

/-- C2 amended: remainingCapacity equals the bound minus the sum of the three
category counts, with a node in several categories counted once per category;
it is therefore at most the deduplicated clamped capacity of the claim, but
can be negative. -/
theorem remainingRebootingCapacity_amended (s : List Node) :
    remainingRebootingCapacity s =
      (maxRebootingNodes : Int) -
        ((s.countP stillRebootingB : Int) + (s.countP beforeTrueB : Int) +
          (s.countP afterTrueB : Int)) ∧
    remainingRebootingCapacity s ≤ specRemainingCapacity s := by
  refine ⟨rfl, ?_⟩
  have h1 : s.countP inFlightB ≤
      s.countP stillRebootingB + s.countP beforeTrueB + s.countP afterTrueB := by
    have h2 : s.countP inFlightB ≤
        s.countP beforeTrueB + s.countP (fun n => stillRebootingB n || afterTrueB n) := by
      have := countP_or_le beforeTrueB (fun n => stillRebootingB n || afterTrueB n) s
      refine le_trans (le_of_eq ?_) this
      apply List.countP_congr
      intro n _
      simp [inFlightB, Bool.or_assoc]
    have h3 := countP_or_le stillRebootingB afterTrueB s
    omega
  unfold remainingRebootingCapacity specRemainingCapacity inFlightCount
  have h4 : (0 : Int) ≤ max 0 ((maxRebootingNodes : Int) - (s.countP inFlightB : Int)) :=
    le_max_left 0 _
  have h5 : (maxRebootingNodes : Int) - (s.countP inFlightB : Int) ≤
      max 0 ((maxRebootingNodes : Int) - (s.countP inFlightB : Int)) := le_max_right 0 _
  omega

/-- C4: the claim says that outside the configured reboot window no node is
moved into PreCheck. Because insideRebootWindow returns the negated condition,
at time 20 (outside the window, as the spec predicate confirms) a full pass
does label the candidate node before-reboot=true. -/
theorem markBeforeReboot_outside_window_code_bug_eval :
    specInsideWindow c1cfg 20 = false ∧
    c4s.countP beforeTrueB = 0 ∧
    (process c1cfg 20 c4s).countP beforeTrueB = 1 := by
  decide

/-- C5: for a node labelled before-reboot=true whose configured before-reboot
annotations are all true, the finish-pre-check phase removes the label, deletes
those annotations and grants reboot-ok=true; a labelled node whose annotations
are not all true is left unchanged by this phase. -/
theorem checkBeforeReboot_finishes_precheck (k : Kontroller) (s : List Node) (n : Node)
    (hres : reservedFree k) (hn : n ∈ s) :
    checkBeforeNode k n ∈ checkBeforeReboot k s ∧
    (beforeTrueB n = true → hasAllAnns n k.beforeRebootAnns = true →
      kvGet? (checkBeforeNode k n).labels labelBefore = none ∧
      (∀ a ∈ k.beforeRebootAnns, kvGet? (checkBeforeNode k n).anns a = none) ∧
      kvGet? (checkBeforeNode k n).anns annOk = some "true") ∧
    (beforeTrueB n = true → hasAllAnns n k.beforeRebootAnns = false →
      checkBeforeNode k n = n) := by
  obtain ⟨hOkB, -, -, -, -, -, -, -⟩ := reservedFree_elim hres
  refine ⟨List.mem_map_of_mem _ hn, ?_, ?_⟩
  · intro hbt hall
    unfold checkBeforeNode
    rw [if_pos (by simp [hbt, hall])]
    refine ⟨by simp [kvGet?_erase], ?_, by simp [kvGet?_set]⟩
    intro a ha
    have hane : ¬a = annOk := fun he => hOkB (he ▸ ha)
    simp [kvGet?_set, kvGet?_eraseAll, hane, ha]
  · intro hbt hnall
    unfold checkBeforeNode
    rw [if_neg (by simp [hbt, hnall])]

theorem wCfg_reservedFree : reservedFree wCfg := by
  intro a ha
  simp [reservedKeys] at ha
  rcases ha with h | h | h | h <;> subst h <;> exact ⟨by decide, by decide⟩

/-- C5 witness: a concrete labelled node with its single gate annotation true
is granted reboot-ok=true by the phase. -/
theorem checkBeforeReboot_finishes_precheck_witness :
    checkBeforeNode wCfg w5node ∈ checkBeforeReboot wCfg [w5node] ∧
    kvGet? (checkBeforeNode wCfg w5node).labels labelBefore = none ∧
    kvGet? (checkBeforeNode wCfg w5node).anns annOk = some "true" := by
  have h := checkBeforeReboot_finishes_precheck wCfg [w5node] w5node wCfg_reservedFree
    (by simp)
  have h2 := h.2.1 (by decide) (by decide)
  exact ⟨h.1, h2.1, h2.2.2⟩

/-- C6 counterexample: the claim additionally asserts the released node returns
to Idle. A node in PostCheck whose agent already set reboot-needed=true is
released by the phase (label removed, reboot-ok=false) but is then in
WantsReboot, not Idle. -/
theorem checkAfterReboot_not_idle_cex :
    afterTrueB c6node = true ∧ hasAllAnns c6node c6cfg.afterRebootAnns = true ∧
    checkAfterReboot c6cfg [c6node] = [c6res] ∧
    kvGet? c6res.labels labelAfter = none ∧
    kvGet? c6res.anns annOk = some "false" ∧
    wantsRebootPhaseB c6res = true ∧ idleB c6res = false := by
  decide

/-- C6 amended: the finish-post-check phase removes the after-reboot label,
deletes the configured after-reboot annotations and sets reboot-ok=false; the
node is then Idle provided it does not again satisfy the wants-reboot
annotations and carries no before-reboot label. -/
theorem checkAfterReboot_finishes_postcheck_amended (k : Kontroller) (s : List Node)
    (n : Node) (hres : reservedFree k) (hn : n ∈ s)
    (hl : afterTrueB n = true) (hall : hasAllAnns n k.afterRebootAnns = true) :
    checkAfterNode k n ∈ checkAfterReboot k s ∧
    kvGet? (checkAfterNode k n).labels labelAfter = none ∧
    (∀ a ∈ k.afterRebootAnns, kvGet? (checkAfterNode k n).anns a = none) ∧
    kvGet? (checkAfterNode k n).anns annOk = some "false" ∧
    (wantsRebootAnnB (checkAfterNode k n) = false →
      beforeTrueB (checkAfterNode k n) = false → idleB (checkAfterNode k n) = true) := by
  obtain ⟨-, -, -, -, hOkA, -, -, -⟩ := reservedFree_elim hres
  refine ⟨List.mem_map_of_mem _ hn, ?_, ?_, ?_, ?_⟩
  · unfold checkAfterNode
    rw [if_pos (by simp [hl, hall])]
    simp [kvGet?_erase]
  · intro a ha
    have hane : ¬a = annOk := fun he => hOkA (he ▸ ha)
    unfold checkAfterNode
    rw [if_pos (by simp [hl, hall])]
    simp [kvGet?_set, kvGet?_eraseAll, hane, ha]
  · unfold checkAfterNode
    rw [if_pos (by simp [hl, hall])]
    simp [kvGet?_set]
  · intro hw hb
    have hok : kvGet? (checkAfterNode k n).anns annOk = some "false" := by
      unfold checkAfterNode
      rw [if_pos (by simp [hl, hall])]
      simp [kvGet?_set]
    have hat : kvGet? (checkAfterNode k n).labels labelAfter = none := by
      unfold checkAfterNode
      rw [if_pos (by simp [hl, hall])]
      simp [kvGet?_erase]
    simp [idleB, wantsRebootPhaseB, justRebootedPhaseB, justRebootedB,
      stillRebootingB, okTrueB, afterTrueB, beforeTrueB, hok, hat] at hw hb ⊢
    tauto

/-- C6 amended witness: a concrete PostCheck node with its gate true and no
renewed reboot request is released and ends Idle. -/
theorem checkAfterReboot_finishes_postcheck_amended_witness :
    kvGet? (checkAfterNode wCfg w6node).anns annOk = some "false" ∧
    idleB (checkAfterNode wCfg w6node) = true := by
  have h := checkAfterReboot_finishes_postcheck_amended wCfg [w6node] w6node
    wCfg_reservedFree (by simp) (by decide) (by decide)
  exact ⟨h.2.2.2.1, h.2.2.2.2 (by decide) (by decide)⟩

/-- C7: after the cleanup transform, a node shows the before-reboot label key
only while its annotations still match wantsRebootSelector; a labelled node
that no longer matches loses the label and all configured before-reboot
annotations. -/
theorem cleanupState_label_invariant (k : Kontroller) (s : List Node) (n : Node)
    (hn : n ∈ s) :
    cleanupNode k n ∈ cleanupState k s ∧
    (beforeTrueB (cleanupNode k n) = true → wantsRebootAnnB (cleanupNode k n) = true) ∧
    (beforeTrueB n = true → wantsRebootAnnB n = false →
      hasBeforeKey (cleanupNode k n) = false ∧
      ∀ a ∈ k.beforeRebootAnns, kvGet? (cleanupNode k n).anns a = none) := by
  refine ⟨List.mem_map_of_mem _ hn, ?_, ?_⟩
  · intro hbt
    exact cleanupNode_wa k n (beforeTrue_hasKey hbt)
  · intro hbt hnw
    have hkey := beforeTrue_hasKey hbt
    unfold cleanupNode
    rw [if_pos (by simp [hkey, hnw])]
    constructor
    · simp [hasBeforeKey, kvGet?_erase]
    · intro a ha
      simp [kvGet?_eraseAll, ha]

/-- C7 witness: a concrete paused node with a stale label is stripped of the
label and its gate annotation, and a kept label implies wants-reboot. -/
theorem cleanupState_label_invariant_witness :
    hasBeforeKey (cleanupNode wCfg w7node) = false ∧
    kvGet? (cleanupNode wCfg w7node).anns "pre" = none ∧
    cleanupNode wCfg w7node ∈ cleanupState wCfg [w7node] := by
  have h := cleanupState_label_invariant wCfg [w7node] w7node (by simp)
  have h3 := h.2.2 (by decide) (by decide)
  exact ⟨h3.1, h3.2 "pre" (by decide), h.1⟩

/-- C10: checkBeforeReboot grants reboot-ok=true to every before-reboot=true
node whose configured gate annotations are all true, with no re-check of the
wants-reboot annotations: the grant happens whatever reboot-paused or
reboot-needed hold at that moment. -/
theorem checkBeforeReboot_no_recheck (k : Kontroller) (n : Node)
    (hl : beforeTrueB n = true) (hall : hasAllAnns n k.beforeRebootAnns = true) :
    kvGet? (checkBeforeNode k n).anns annOk = some "true" := by
  unfold checkBeforeNode
  rw [if_pos (by simp [hl, hall])]
  simp [kvGet?_set]

/-- C10 witness: a paused node with reboot-needed=false still gets the grant. -/
theorem checkBeforeReboot_no_recheck_witness :
    kvGet? w10node.anns annPaused = some "true" ∧
    kvGet? w10node.anns annNeeded = some "false" ∧
    kvGet? (checkBeforeNode wCfg w10node).anns annOk = some "true" := by
  refine ⟨by decide, by decide, ?_⟩
  exact checkBeforeReboot_no_recheck wCfg w10node (by decide) (by decide)

/-- C8 counterexample: with both configured annotation lists empty, a second
pass is not a no-op on the output of the first: the first pass labels the
candidate node, the second removes the label and grants reboot-ok. -/
theorem process_not_idempotent_cex :
    process c8cfg 0 (process c8cfg 0 c8s) ≠ process c8cfg 0 c8s := by
  decide

/-- C3 counterexample: under the spec's field ownership (agents may write any
annotation except reboot-ok between passes), a state with two in-flight nodes
after a successful pass is reachable from a fresh two-node fleet: node a is
granted and reboots; while a still shows reboot-in-progress=true with
reboot-needed already false it is invisible to the capacity computation, so a
pass admits b into PreCheck; once a finishes, the next pass labels a
after-reboot=true while b is Admitted. -/
theorem inFlight_bound_violation_cex :
    Reachable c3cfg 0 c3s6 ∧ c3s6 = process c3cfg 0 c3s5 ∧
    maxRebootingNodes = 1 ∧ 1 < inFlightCount c3s6 := by
  refine ⟨?_, rfl, rfl, by decide⟩
  have h0 : Reachable c3cfg 0 c3s0 := Reachable.init ["a", "b"]
  have h0a : Reachable c3cfg 0 c3s0a :=
    Reachable.env _ _ h0 (EnvWrite.write c3s0 "a" annNeeded "true" (by decide))
  have h1 : Reachable c3cfg 0 c3s1 := Reachable.pass _ h0a
  have h2 : Reachable c3cfg 0 c3s2 := Reachable.pass _ h1
  have h2a : Reachable c3cfg 0 c3s2a :=
    Reachable.env _ _ h2 (EnvWrite.write c3s2 "b" annNeeded "true" (by decide))
  have h2b : Reachable c3cfg 0 c3s2b :=
    Reachable.env _ _ h2a (EnvWrite.write c3s2a "a" annInProgress "true" (by decide))
  have h3 : Reachable c3cfg 0 c3s3 :=
    Reachable.env _ _ h2b (EnvWrite.write c3s2b "a" annNeeded "false" (by decide))
  have h4 : Reachable c3cfg 0 c3s4 := Reachable.pass _ h3
  have h5 : Reachable c3cfg 0 c3s5 :=
    Reachable.env _ _ h4 (EnvWrite.write c3s4 "a" annInProgress "false" (by decide))
  exact Reachable.pass _ h5

/-- C9: DefaultRetry carries 5 steps, 10 ms base, factor 1 and 10 percent
jitter, and RetryOnConflict retries only on conflicts: five conflicts return
the last conflict error, a non-conflict error is returned from the first
attempt producing it, and success after conflicts returns no error. -/
theorem retryOnConflict_spec :
    DefaultRetry.steps = 5 ∧ DefaultRetry.durationMs = 10 ∧
    DefaultRetry.factor = 1 ∧ DefaultRetry.jitter = 1 / 10 ∧
    (∀ (fn : Nat → Outcome) (c : Nat → Nat),
      (∀ i, i < 5 → fn i = Outcome.conflict (c i)) →
      retryOnConflict DefaultRetry fn = some (RetryErr.conflictErr (c 4))) ∧
    (∀ (fn : Nat → Outcome) (i e : Nat), i < 5 →
      (∀ j, j < i → ∃ cj, fn j = Outcome.conflict cj) →
      fn i = Outcome.other e →
      retryOnConflict DefaultRetry fn = some (RetryErr.otherErr e)) ∧
    (∀ (fn : Nat → Outcome) (i : Nat), i < 5 →
      (∀ j, j < i → ∃ cj, fn j = Outcome.conflict cj) →
      fn i = Outcome.ok → retryOnConflict DefaultRetry fn = none) := by
  refine ⟨rfl, rfl, rfl, rfl, ?_, ?_, ?_⟩
  · intro fn c h
    simp [retryOnConflict, DefaultRetry, retryAux,
      h 0 (by omega), h 1 (by omega), h 2 (by omega), h 3 (by omega), h 4 (by omega)]
  · intro fn i e hi hprev hat
    interval_cases i
    · simp [retryOnConflict, DefaultRetry, retryAux, hat]
    · obtain ⟨c0, h0⟩ := hprev 0 (by omega)
      simp [retryOnConflict, DefaultRetry, retryAux, h0, hat]
    · obtain ⟨c0, h0⟩ := hprev 0 (by omega)
      obtain ⟨c1, h1⟩ := hprev 1 (by omega)
      simp [retryOnConflict, DefaultRetry, retryAux, h0, h1, hat]
    · obtain ⟨c0, h0⟩ := hprev 0 (by omega)
      obtain ⟨c1, h1⟩ := hprev 1 (by omega)
      obtain ⟨c2, h2⟩ := hprev 2 (by omega)
      simp [retryOnConflict, DefaultRetry, retryAux, h0, h1, h2, hat]
    · obtain ⟨c0, h0⟩ := hprev 0 (by omega)
      obtain ⟨c1, h1⟩ := hprev 1 (by omega)
      obtain ⟨c2, h2⟩ := hprev 2 (by omega)
      obtain ⟨c3, h3⟩ := hprev 3 (by omega)
      simp [retryOnConflict, DefaultRetry, retryAux, h0, h1, h2, h3, hat]
  · intro fn i hi hprev hat
    interval_cases i
    · simp [retryOnConflict, DefaultRetry, retryAux, hat]
    · obtain ⟨c0, h0⟩ := hprev 0 (by omega)
      simp [retryOnConflict, DefaultRetry, retryAux, h0, hat]
    · obtain ⟨c0, h0⟩ := hprev 0 (by omega)
      obtain ⟨c1, h1⟩ := hprev 1 (by omega)
      simp [retryOnConflict, DefaultRetry, retryAux, h0, h1, hat]
    · obtain ⟨c0, h0⟩ := hprev 0 (by omega)
      obtain ⟨c1, h1⟩ := hprev 1 (by omega)
      obtain ⟨c2, h2⟩ := hprev 2 (by omega)
      simp [retryOnConflict, DefaultRetry, retryAux, h0, h1, h2, hat]
    · obtain ⟨c0, h0⟩ := hprev 0 (by omega)
      obtain ⟨c1, h1⟩ := hprev 1 (by omega)
      obtain ⟨c2, h2⟩ := hprev 2 (by omega)
      obtain ⟨c3, h3⟩ := hprev 3 (by omega)
      simp [retryOnConflict, DefaultRetry, retryAux, h0, h1, h2, h3, hat]

/-- C9 witness: five conflicts surface the last conflict error; an unrelated
error at the fourth attempt is returned as is; success after two conflicts
returns no error. -/
theorem retryOnConflict_spec_witness :
    retryOnConflict DefaultRetry (fun j => Outcome.conflict j) =
      some (RetryErr.conflictErr 4) ∧
    retryOnConflict DefaultRetry
      (fun j => if j < 3 then Outcome.conflict j else Outcome.other 7) =
      some (RetryErr.otherErr 7) ∧
    retryOnConflict DefaultRetry
      (fun j => if j < 2 then Outcome.conflict j else Outcome.ok) = none := by
  refine ⟨retryOnConflict_spec.2.2.2.2.1 _ (fun i => i) (fun i _ => rfl), ?_, ?_⟩
  · exact retryOnConflict_spec.2.2.2.2.2.1 _ 3 7 (by omega)
      (fun j hj => ⟨j, by simp [hj]⟩) (by simp)
  · exact retryOnConflict_spec.2.2.2.2.2.2 _ 2 (by omega)
      (fun j hj => ⟨j, by simp [hj]⟩) (by simp)

theorem still_marked {n : Node} (h : stillRebootingB n = true) : markedB n = true := by
  simp only [stillRebootingB, Bool.and_eq_true] at h
  simp [markedB, okTrueB, h.1]

theorem before_marked {n : Node} (h : beforeTrueB n = true) : markedB n = true := by
  simp [markedB, h]

theorem after_marked {n : Node} (h : afterTrueB n = true) : markedB n = true := by
  simp [markedB, h]

theorem inFlight_marked {n : Node} (h : inFlightB n = true) : markedB n = true := by
  simp only [inFlightB, Bool.or_eq_true] at h
  rcases h with (h | h) | h
  · exact before_marked h
  · exact still_marked h
  · exact after_marked h

theorem countP_map_le_of_imp (f : Node → Node) (p : Node → Bool) (l : List Node)
    (h : ∀ n ∈ l, p (f n) = true → p n = true) :
    (l.map f).countP p ≤ l.countP p := by
  rw [List.countP_map]
  exact List.countP_mono_left h

theorem forall_mem_map {f : Node → Node} {P : Node → Prop} {l : List Node}
    (h : ∀ n ∈ l, P (f n)) : ∀ m ∈ l.map f, P m := by
  intro m hm
  obtain ⟨n, hn, rfl⟩ := List.mem_map.mp hm
  exact h n hn

theorem map_name_eq (f : Node → Node) (l : List Node)
    (h : ∀ n ∈ l, (f n).name = n.name) :
    (l.map f).map Node.name = l.map Node.name := by
  rw [List.map_map]
  exact List.map_congr_left h

theorem countP_contains_le_one (t : List Node) (hnd : (t.map Node.name).Nodup)
    (names : List String) (hlen : names.length ≤ 1) :
    t.countP (fun n => names.contains n.name) ≤ 1 := by
  match names, hlen with
  | [], _ =>
    have : t.countP (fun n => List.contains [] n.name) = 0 := by
      rw [List.countP_eq_zero]
      intro n _
      simp [List.contains]
    omega
  | [x], _ =>
    have heq : t.countP (fun n => List.contains [x] n.name) =
        t.countP (fun n => n.name == x) := by
      apply List.countP_congr
      intro n _
      by_cases h : n.name = x <;> simp [List.contains, h]
    rw [heq]
    have hcount : t.countP (fun n => n.name == x) = (t.map Node.name).count x := by
      rw [List.count_eq_countP, List.countP_map]
      rfl
    rw [hcount]
    exact List.nodup_iff_count_le_one.mp hnd x

theorem rebootableNames_nil_of_nonpos (t : List Node)
    (hcap : remainingRebootingCapacity t ≤ 0) : rebootableNames t = [] := by
  unfold rebootableNames
  rw [Int.toNat_of_nonpos hcap]
  simp

theorem cntMarked_markBefore_le (k : Kontroller) (now : Int) (t : List Node)
    (hnd : (t.map Node.name).Nodup) (hq : ∀ n ∈ t, Qn n) (hcnt : cntMarked t ≤ 1) :
    cntMarked (markBeforeReboot k now t) ≤ 1 := by
  unfold markBeforeReboot
  split
  · exact hcnt
  · unfold cntMarked at hcnt
    by_cases hzero : t.countP markedB = 0
    · have hstill : t.countP stillRebootingB = 0 := by
        have := List.countP_mono_left (l := t)
          (fun n _ h => still_marked (n := n) h)
        omega
      have hbef : t.countP beforeTrueB = 0 := by
        have := List.countP_mono_left (l := t)
          (fun n _ h => before_marked (n := n) h)
        omega
      have haft : t.countP afterTrueB = 0 := by
        have := List.countP_mono_left (l := t)
          (fun n _ h => after_marked (n := n) h)
        omega
      have hcap : remainingRebootingCapacity t = 1 := by
        unfold remainingRebootingCapacity maxRebootingNodes
        rw [hstill, hbef, haft]
        simp
      have hlen : (rebootableNames t).length ≤ 1 := by
        unfold rebootableNames
        rw [List.length_map, List.length_take, hcap]
        exact min_le_left _ _
      have hpt : ∀ n ∈ t,
          markedB (if (rebootableNames t).contains n.name then
            markNode k.beforeRebootAnns labelBefore n else n) = true →
          (markedB n || (rebootableNames t).contains n.name) = true := by
        intro n _ h
        by_cases hc : (rebootableNames t).contains n.name = true
        · rw [hc]
          exact Bool.or_true _
        · have hcf : (rebootableNames t).contains n.name = false := by
            rwa [Bool.not_eq_true] at hc
          rw [if_neg hc] at h
          rw [hcf, Bool.or_false]
          exact h
      have step1 : (t.map fun n =>
          if (rebootableNames t).contains n.name then
            markNode k.beforeRebootAnns labelBefore n else n).countP markedB ≤
          t.countP (fun n => markedB n || (rebootableNames t).contains n.name) := by
        rw [List.countP_map]
        exact List.countP_mono_left hpt
      have step2 := countP_or_le markedB (fun n => (rebootableNames t).contains n.name) t
      have step3 := countP_contains_le_one t hnd (rebootableNames t) hlen
      unfold cntMarked
      omega
    · have hpos : 0 < t.countP markedB := Nat.pos_of_ne_zero hzero
      obtain ⟨n, hn, hm⟩ := List.countP_pos_iff.mp hpos
      have hdisj : (okTrueB n = true ∨ beforeTrueB n = true) ∨ afterTrueB n = true := by
        simpa only [markedB, Bool.or_eq_true] using hm
      have hsum : 1 ≤ t.countP stillRebootingB + t.countP beforeTrueB +
          t.countP afterTrueB := by
        rcases hdisj with (hok | hbt) | hat
        · rcases hq n hn hok with hat2 | hst
          · have : 0 < t.countP afterTrueB := List.countP_pos_iff.mpr ⟨n, hn, hat2⟩
            omega
          · have : 0 < t.countP stillRebootingB := List.countP_pos_iff.mpr ⟨n, hn, hst⟩
            omega
        · have : 0 < t.countP beforeTrueB := List.countP_pos_iff.mpr ⟨n, hn, hbt⟩
          omega
        · have : 0 < t.countP afterTrueB := List.countP_pos_iff.mpr ⟨n, hn, hat⟩
          omega
      have hcap : remainingRebootingCapacity t ≤ 0 := by
        unfold remainingRebootingCapacity maxRebootingNodes
        push_cast
        omega
      have hnames := rebootableNames_nil_of_nonpos t hcap
      have hid : (t.map fun n =>
          if (rebootableNames t).contains n.name then
            markNode k.beforeRebootAnns labelBefore n else n) = t := by
        apply map_self
        intro n _
        rw [hnames]
        simp [List.contains]
      rw [hid]
      unfold cntMarked
      exact hcnt

/-- C3 amended: the claim quantifies over all reachable states; with
unrestricted per-field agent writes the bound can be exceeded (see the
counterexample), so the invariant is stated for passes started from a state
where at most one node carries a controller marker (reboot-ok=true or a phase
label) and every reboot-ok=true node either still has reboot-needed=true or
has reboot-needed and reboot-in-progress both false, which is what the
documented agent write-back yields between passes. Node names are distinct and
the configured check keys avoid the protocol keys. After such a pass, at most
MaxConcurrentReboots nodes are in flight. -/
theorem inFlight_bound_after_pass_amended (k : Kontroller) (now : Int) (s : List Node)
    (hres : reservedFree k) (hnd : (s.map Node.name).Nodup)
    (hcnt : cntMarked s ≤ maxRebootingNodes) (hj : agentConsistent s) :
    inFlightCount (process k now s) ≤ maxRebootingNodes := by
  have hb1 : maxRebootingNodes = 1 := rfl
  rw [hb1] at hcnt ⊢
  have h1wa : ∀ n ∈ cleanupState k s, WAn n :=
    forall_mem_map (fun n _ => cleanupNode_wa k n)
  have h1jp : ∀ n ∈ cleanupState k s, JPn n :=
    forall_mem_map (fun n hn => cleanupNode_jp hres n (hj n hn))
  have h1cnt : cntMarked (cleanupState k s) ≤ 1 :=
    le_trans (countP_map_le_of_imp _ _ _ (fun n _ => cleanupNode_marked hres n)) hcnt
  have h1nm : (cleanupState k s).map Node.name = s.map Node.name :=
    map_name_eq _ _ (fun n _ => cleanupNode_name k n)
  have h2wa : ∀ n ∈ checkAfterReboot k (cleanupState k s), WAn n :=
    forall_mem_map (fun n hn => checkAfterNode_wa hres n (h1wa n hn))
  have h2jp : ∀ n ∈ checkAfterReboot k (cleanupState k s), JPn n :=
    forall_mem_map (fun n hn => checkAfterNode_jp k n (h1jp n hn))
  have h2cnt : cntMarked (checkAfterReboot k (cleanupState k s)) ≤ 1 :=
    le_trans (countP_map_le_of_imp _ _ _ (fun n _ => checkAfterNode_marked k n)) h1cnt
  have h2nm : (checkAfterReboot k (cleanupState k s)).map Node.name = s.map Node.name :=
    (map_name_eq _ _ (fun n _ => checkAfterNode_name k n)).trans h1nm
  have h3wa : ∀ n ∈ markAfterReboot k (checkAfterReboot k (cleanupState k s)), WAn n :=
    forall_mem_map (fun n hn => markAfterNode_wa k n (h2wa n hn))
  have h3q : ∀ n ∈ markAfterReboot k (checkAfterReboot k (cleanupState k s)), Qn n :=
    forall_mem_map (fun n hn => markAfterNode_q hres n (h2jp n hn))
  have h3cnt : cntMarked (markAfterReboot k (checkAfterReboot k (cleanupState k s))) ≤ 1 :=
    le_trans (countP_map_le_of_imp _ _ _ (fun n _ => markAfterNode_marked k n)) h2cnt
  have h3nm : (markAfterReboot k (checkAfterReboot k (cleanupState k s))).map Node.name =
      s.map Node.name :=
    (map_name_eq _ _ (fun n _ => markAfterNode_name k n)).trans h2nm
  have h4q : ∀ n ∈ checkBeforeReboot k
      (markAfterReboot k (checkAfterReboot k (cleanupState k s))), Qn n :=
    forall_mem_map (fun n hn => checkBeforeNode_q hres n (h3wa n hn) (h3q n hn))
  have h4cnt : cntMarked (checkBeforeReboot k
      (markAfterReboot k (checkAfterReboot k (cleanupState k s)))) ≤ 1 :=
    le_trans (countP_map_le_of_imp _ _ _ (fun n _ => checkBeforeNode_marked k n)) h3cnt
  have h4nm : (checkBeforeReboot k
      (markAfterReboot k (checkAfterReboot k (cleanupState k s)))).map Node.name =
      s.map Node.name :=
    (map_name_eq _ _ (fun n _ => checkBeforeNode_name k n)).trans h3nm
  have h4nd : ((checkBeforeReboot k
      (markAfterReboot k (checkAfterReboot k (cleanupState k s)))).map Node.name).Nodup := by
    rw [h4nm]; exact hnd
  have h5 := cntMarked_markBefore_le k now _ h4nd h4q h4cnt
  unfold process
  refine le_trans ?_ h5
  unfold cntMarked inFlightCount
  exact List.countP_mono_left (fun n _ h => inFlight_marked h)

theorem wS_agentConsistent : agentConsistent wS := by
  intro n hn
  simp [wS] at hn
  rcases hn with rfl | rfl
  · exact fun _ => Or.inl (by decide)
  · exact fun hok => absurd hok (by decide)

theorem contains_true_iff_mem (l : List String) (a : String) :
    l.contains a = true ↔ a ∈ l := by
  simp [List.contains, List.elem_iff]

theorem cleanupNode_id_of_wa (k : Kontroller) (n : Node) (h : WAn n) :
    cleanupNode k n = n := by
  unfold cleanupNode
  rw [if_neg]
  intro hcond
  simp only [Bool.and_eq_true, Bool.not_eq_true'] at hcond
  rw [h hcond.1] at hcond
  exact Bool.noConfusion hcond.2

theorem checkAfterNode_id_of_cn (k : Kontroller) (n : Node) (h : CnP k n) :
    checkAfterNode k n = n := by
  unfold checkAfterNode
  rw [if_neg]
  intro hcond
  simp only [Bool.and_eq_true] at hcond
  rw [h hcond.1] at hcond
  exact Bool.false_ne_true hcond.2

theorem markAfterNode_id_of_dn (k : Kontroller) (n : Node) (h : DnP n) :
    markAfterNode k n = n := by
  unfold markAfterNode
  rw [if_neg]
  intro hcond
  simp only [Bool.and_eq_true, Bool.not_eq_true'] at hcond
  rw [h hcond.1] at hcond
  exact Bool.noConfusion hcond.2

theorem checkBeforeNode_id_of_bn (k : Kontroller) (n : Node) (h : BnP k n) :
    checkBeforeNode k n = n := by
  unfold checkBeforeNode
  rw [if_neg]
  intro hcond
  simp only [Bool.and_eq_true] at hcond
  rw [h hcond.1] at hcond
  exact Bool.false_ne_true hcond.2

theorem wants_ok_false {n : Node} (hw : wantsRebootAnnB n = true) : okTrueB n = false := by
  simp only [wantsRebootAnnB, Bool.and_eq_true, Bool.not_eq_true'] at hw
  exact hw.1.2

theorem markNode_beforeTrue (ks : List String) (n : Node) :
    beforeTrueB (markNode ks labelBefore n) = true := by
  simp [markNode, beforeTrueB, kvGet?_set]

theorem markNode_afterTrue_eq (ks : List String) (n : Node) :
    afterTrueB (markNode ks labelBefore n) = afterTrueB n := by
  simp [markNode, afterTrueB, kvGet?_set, ne_after_before]

theorem markNode_wants_eq {k : Kontroller} (hres : reservedFree k) (n : Node) :
    wantsRebootAnnB (markNode k.beforeRebootAnns labelBefore n) = wantsRebootAnnB n := by
  obtain ⟨hOkB, hNeB, hIpB, hPaB, -, -, -, -⟩ := reservedFree_elim hres
  simp [markNode, wantsRebootAnnB, kvGet?_eraseAll, hOkB, hNeB, hIpB, hPaB]

theorem markNode_ok_eq {k : Kontroller} (hres : reservedFree k) (n : Node) :
    okTrueB (markNode k.beforeRebootAnns labelBefore n) = okTrueB n := by
  obtain ⟨hOkB, -, -, -, -, -, -, -⟩ := reservedFree_elim hres
  simp [markNode, okTrueB, kvGet?_eraseAll, hOkB]

theorem markNode_wa {k : Kontroller} (hres : reservedFree k) (n : Node)
    (hw : wantsRebootAnnB n = true) : WAn (markNode k.beforeRebootAnns labelBefore n) := by
  intro _
  rw [markNode_wants_eq hres]
  exact hw

theorem markNode_bn {k : Kontroller} (hb : k.beforeRebootAnns ≠ []) (n : Node) :
    BnP k (markNode k.beforeRebootAnns labelBefore n) := by
  intro _
  show hasAllKV (kvEraseAll n.anns k.beforeRebootAnns) k.beforeRebootAnns = false
  exact hasAllKV_eraseAll_same _ _ hb

theorem markNode_cn {k : Kontroller} (n : Node) (h : CnP k n) :
    CnP k (markNode k.beforeRebootAnns labelBefore n) := by
  intro hat
  rw [markNode_afterTrue_eq] at hat
  show hasAllKV (kvEraseAll n.anns k.beforeRebootAnns) k.afterRebootAnns = false
  cases hval : hasAllKV (kvEraseAll n.anns k.beforeRebootAnns) k.afterRebootAnns
  · rfl
  · exfalso
    have h2 := hasAllKV_of_eraseAll _ _ _ hval
    have h3 := h hat
    simp only [hasAllAnns] at h3
    rw [h3] at h2
    exact Bool.false_ne_true h2

theorem markNode_dn {k : Kontroller} (hres : reservedFree k) (n : Node)
    (hok : okTrueB n = false) : DnP (markNode k.beforeRebootAnns labelBefore n) := by
  intro hjr
  exfalso
  simp only [justRebootedB, Bool.and_eq_true] at hjr
  have h1 : okTrueB (markNode k.beforeRebootAnns labelBefore n) = true := hjr.1.1
  rw [markNode_ok_eq hres, hok] at h1
  exact Bool.false_ne_true h1

theorem mem_rebootableNames {t : List Node} (hnd : (t.map Node.name).Nodup)
    {n : Node} (hn : n ∈ t) (hc : (rebootableNames t).contains n.name = true) :
    wantsRebootAnnB n = true ∧ beforeTrueB n = false := by
  rw [contains_true_iff_mem] at hc
  unfold rebootableNames at hc
  obtain ⟨m, hmtake, hmn⟩ := List.mem_map.mp hc
  have hmcands : m ∈ nodesRequiringReboot t := List.take_subset _ _ hmtake
  unfold nodesRequiringReboot at hmcands
  obtain ⟨hm1, hm2⟩ := List.mem_filter.mp hmcands
  obtain ⟨hmt, hmw⟩ := List.mem_filter.mp hm1
  have hmeq : m = n := List.inj_on_of_nodup_map hnd hmt hn hmn
  subst hmeq
  constructor
  · exact hmw
  · rwa [Bool.not_eq_true'] at hm2

theorem markBefore_props (k : Kontroller) (now : Int) (t : List Node)
    (hb : k.beforeRebootAnns ≠ []) (hres : reservedFree k)
    (hnd : (t.map Node.name).Nodup)
    (hwa : ∀ n ∈ t, WAn n) (hbn : ∀ n ∈ t, BnP k n) (hcn : ∀ n ∈ t, CnP k n)
    (hdn : ∀ n ∈ t, DnP n) :
    ∀ m ∈ markBeforeReboot k now t, WAn m ∧ BnP k m ∧ CnP k m ∧ DnP m := by
  unfold markBeforeReboot
  split
  · exact fun m hm => ⟨hwa m hm, hbn m hm, hcn m hm, hdn m hm⟩
  · apply forall_mem_map
    intro n hn
    by_cases hc : (rebootableNames t).contains n.name = true
    · rw [if_pos hc]
      obtain ⟨hw, -⟩ := mem_rebootableNames hnd hn hc
      exact ⟨markNode_wa hres n hw, markNode_bn hb n, markNode_cn n (hcn n hn),
        markNode_dn hres n (wants_ok_false hw)⟩
    · rw [if_neg hc]
      exact ⟨hwa n hn, hbn n hn, hcn n hn, hdn n hn⟩

theorem markBefore_name_eq (k : Kontroller) (now : Int) (t : List Node) :
    (markBeforeReboot k now t).map Node.name = t.map Node.name := by
  unfold markBeforeReboot
  split
  · rfl
  · rw [List.map_map]
    apply List.map_congr_left
    intro n _
    by_cases hc : (rebootableNames t).contains n.name = true
    · simp only [Function.comp]
      rw [if_pos hc]
      rfl
    · simp only [Function.comp]
      rw [if_neg hc]

theorem markBefore_id_of_nil (k : Kontroller) (now : Int) (t : List Node)
    (h : rebootableNames t = []) : markBeforeReboot k now t = t := by
  unfold markBeforeReboot
  split
  · rfl
  · apply map_self
    intro n _
    rw [h]
    simp [List.contains]

theorem markBefore_idem (k : Kontroller) (now : Int) (t : List Node)
    (hnd : (t.map Node.name).Nodup) :
    markBeforeReboot k now (markBeforeReboot k now t) = markBeforeReboot k now t := by
  by_cases hwin : insideRebootWindow k now = true
  · by_cases hcap : remainingRebootingCapacity t ≤ 0
    · have hnil := rebootableNames_nil_of_nonpos t hcap
      rw [markBefore_id_of_nil k now t hnil, markBefore_id_of_nil k now t hnil]
    · have hsum0 : t.countP stillRebootingB = 0 ∧ t.countP beforeTrueB = 0 ∧
          t.countP afterTrueB = 0 := by
        unfold remainingRebootingCapacity maxRebootingNodes at hcap
        push_cast at hcap
        omega
      have hcap1 : remainingRebootingCapacity t = 1 := by
        unfold remainingRebootingCapacity maxRebootingNodes
        rw [hsum0.1, hsum0.2.1, hsum0.2.2]
        simp
      cases hcands : nodesRequiringReboot t with
      | nil =>
        have hnil : rebootableNames t = [] := by
          unfold rebootableNames
          rw [hcands]
          simp
        rw [markBefore_id_of_nil k now t hnil, markBefore_id_of_nil k now t hnil]
      | cons c rest =>
        have hnames1 : rebootableNames t = [c.name] := by
          unfold rebootableNames
          rw [hcands, hcap1]
          rfl
        have hct : c ∈ t := by
          have : c ∈ nodesRequiringReboot t := by rw [hcands]; exact List.mem_cons_self c rest
          unfold nodesRequiringReboot at this
          exact (List.mem_filter.mp (List.mem_filter.mp this).1).1
        have hcmem : beforeTrueB ((fun n =>
            if (rebootableNames t).contains n.name then
              markNode k.beforeRebootAnns labelBefore n else n) c) = true := by
          rw [hnames1]
          show beforeTrueB (if ([c.name] : List String).contains c.name = true then
            markNode k.beforeRebootAnns labelBefore c else c) = true
          rw [if_pos (by simp [List.contains])]
          exact markNode_beforeTrue _ _
        have hout : markBeforeReboot k now t = t.map (fun n =>
            if (rebootableNames t).contains n.name then
              markNode k.beforeRebootAnns labelBefore n else n) := by
          unfold markBeforeReboot
          rw [if_neg (by simp [hwin])]
        have hbefpos : 0 < (markBeforeReboot k now t).countP beforeTrueB := by
          rw [hout]
          refine List.countP_pos_iff.mpr ⟨_, List.mem_map_of_mem _ hct, hcmem⟩
        have hcap2 : remainingRebootingCapacity (markBeforeReboot k now t) ≤ 0 := by
          unfold remainingRebootingCapacity maxRebootingNodes
          push_cast
          omega
        exact markBefore_id_of_nil k now _
          (rebootableNames_nil_of_nonpos _ hcap2)
  · have hskip : ∀ u : List Node, markBeforeReboot k now u = u := by
      intro u
      unfold markBeforeReboot
      rw [if_pos (by simp [Bool.not_eq_true] at hwin ⊢; exact hwin)]
    rw [hskip, hskip]

/-- C8 amended: with both configured annotation lists nonempty, check keys
distinct from the protocol keys, and distinct node names, a second
reconciliation pass with no intervening writes reproduces exactly the state
left by the first pass. -/
theorem process_idempotent_amended (k : Kontroller) (now : Int) (s : List Node)
    (hb : k.beforeRebootAnns ≠ []) (ha : k.afterRebootAnns ≠ [])
    (hres : reservedFree k) (hnd : (s.map Node.name).Nodup) :
    process k now (process k now s) = process k now s := by
  have h1wa : ∀ n ∈ cleanupState k s, WAn n :=
    forall_mem_map (fun n _ => cleanupNode_wa k n)
  have h2wa : ∀ n ∈ checkAfterReboot k (cleanupState k s), WAn n :=
    forall_mem_map (fun n hn => checkAfterNode_wa hres n (h1wa n hn))
  have h2cn : ∀ n ∈ checkAfterReboot k (cleanupState k s), CnP k n :=
    forall_mem_map (fun n _ => checkAfterNode_cn k n)
  have h3wa : ∀ n ∈ markAfterReboot k (checkAfterReboot k (cleanupState k s)), WAn n :=
    forall_mem_map (fun n hn => markAfterNode_wa k n (h2wa n hn))
  have h3cn : ∀ n ∈ markAfterReboot k (checkAfterReboot k (cleanupState k s)), CnP k n :=
    forall_mem_map (fun n hn => markAfterNode_cn hres ha n (h2cn n hn))
  have h3dn : ∀ n ∈ markAfterReboot k (checkAfterReboot k (cleanupState k s)), DnP n :=
    forall_mem_map (fun n _ => markAfterNode_dn k n)
  have h4wa : ∀ n ∈ checkBeforeReboot k
      (markAfterReboot k (checkAfterReboot k (cleanupState k s))), WAn n :=
    forall_mem_map (fun n hn => checkBeforeNode_wa k n (h3wa n hn))
  have h4bn : ∀ n ∈ checkBeforeReboot k
      (markAfterReboot k (checkAfterReboot k (cleanupState k s))), BnP k n :=
    forall_mem_map (fun n _ => checkBeforeNode_bn k n)
  have h4cn : ∀ n ∈ checkBeforeReboot k
      (markAfterReboot k (checkAfterReboot k (cleanupState k s))), CnP k n :=
    forall_mem_map (fun n hn => checkBeforeNode_cn hres n (h3cn n hn))
  have h4dn : ∀ n ∈ checkBeforeReboot k
      (markAfterReboot k (checkAfterReboot k (cleanupState k s))), DnP n :=
    forall_mem_map (fun n hn => checkBeforeNode_dn hres n (h3wa n hn) (h3dn n hn))
  have h1nm : (cleanupState k s).map Node.name = s.map Node.name :=
    map_name_eq _ _ (fun n _ => cleanupNode_name k n)
  have h2nm : (checkAfterReboot k (cleanupState k s)).map Node.name = s.map Node.name :=
    (map_name_eq _ _ (fun n _ => checkAfterNode_name k n)).trans h1nm
  have h3nm : (markAfterReboot k (checkAfterReboot k (cleanupState k s))).map Node.name =
      s.map Node.name :=
    (map_name_eq _ _ (fun n _ => markAfterNode_name k n)).trans h2nm
  have h4nm : (checkBeforeReboot k
      (markAfterReboot k (checkAfterReboot k (cleanupState k s)))).map Node.name =
      s.map Node.name :=
    (map_name_eq _ _ (fun n _ => checkBeforeNode_name k n)).trans h3nm
  have h4nd : ((checkBeforeReboot k
      (markAfterReboot k (checkAfterReboot k (cleanupState k s)))).map Node.name).Nodup := by
    rw [h4nm]; exact hnd
  have hout : ∀ m ∈ process k now s, WAn m ∧ BnP k m ∧ CnP k m ∧ DnP m :=
    markBefore_props k now _ hb hres h4nd h4wa h4bn h4cn h4dn
  have houtnd : ((process k now s).map Node.name).Nodup := by
    have := markBefore_name_eq k now (checkBeforeReboot k
      (markAfterReboot k (checkAfterReboot k (cleanupState k s))))
    unfold process
    rw [this, h4nm]
    exact hnd
  have e1 : cleanupState k (process k now s) = process k now s :=
    map_self _ _ (fun n hn => cleanupNode_id_of_wa k n (hout n hn).1)
  have e2 : checkAfterReboot k (process k now s) = process k now s :=
    map_self _ _ (fun n hn => checkAfterNode_id_of_cn k n (hout n hn).2.2.1)
  have e3 : markAfterReboot k (process k now s) = process k now s :=
    map_self _ _ (fun n hn => markAfterNode_id_of_dn k n (hout n hn).2.2.2)
  have e4 : checkBeforeReboot k (process k now s) = process k now s :=
    map_self _ _ (fun n hn => checkBeforeNode_id_of_bn k n (hout n hn).2.1)
  have e5 : markBeforeReboot k now (process k now s) = process k now s := by
    have hidem := markBefore_idem k now (checkBeforeReboot k
      (markAfterReboot k (checkAfterReboot k (cleanupState k s)))) h4nd
    exact hidem
  show markBeforeReboot k now (checkBeforeReboot k (markAfterReboot k
    (checkAfterReboot k (cleanupState k (process k now s))))) = process k now s
  rw [e1, e2, e3, e4]
  exact e5

/-- C8 amended witness: with nonempty check lists, a second pass on the pass
output of a one-candidate fleet changes nothing. -/
theorem process_idempotent_amended_witness :
    process wCfg 0 (process wCfg 0 c8s) = process wCfg 0 c8s := by
  exact process_idempotent_amended wCfg 0 c8s (by decide) (by decide)
    wCfg_reservedFree (by decide)

/-- C3 amended witness: a fleet with one Admitted node and one idle node
satisfies the preconditions, and a pass keeps the in-flight count within the
bound. -/
theorem inFlight_bound_after_pass_amended_witness :
    cntMarked wS ≤ maxRebootingNodes ∧
    inFlightCount (process wCfg 0 wS) ≤ maxRebootingNodes := by
  refine ⟨by decide, ?_⟩
  exact inFlight_bound_after_pass_amended wCfg 0 wS wCfg_reservedFree (by decide)
    (by decide) wS_agentConsistent

end FLUO
